import Mathlib

/-!
# Verification of the `restful.py` command-line REST client

This file gives a shallow embedding of the request/response processing and
output-serialization pipeline of `restful.py` (class `RestfulClient`,
methods `process_response` and `dump_output`), together with models of the
external library calls it makes (`json.dumps`/`json.loads` with
`indent=2`, `csv.writer`, `requests.Response.raise_for_status`), and
proves or refutes the specification's claims about it.

Conventions of the embedding:
* A run's observable effects are collected in `RunRes`: the list of lines
  printed to the console in order, the list of files written as
  `(path, content)` pairs, and `exited = some c` when the program called
  `exit(c)` (with `none` meaning the code fell through, i.e. process exit
  code 0).
* JSON values are the inductive `Json` (objects keep insertion order,
  numbers are integers).
* `Json.dumps` models `json.dumps(data, indent=2)` and `Json.parse`
  models `json.loads`, over the `Json` fragment.
-/

/-- A JSON value as produced by `response.json()`: null, booleans,
(integer) numbers, strings, arrays, and objects in insertion order. -/
inductive Json where
  | null : Json
  | bool (b : Bool) : Json
  | num (n : Int) : Json
  | str (s : String) : Json
  | arr (xs : List Json) : Json
  | obj (kvs : List (String × Json)) : Json

/-- The left-brace character, written by code point to keep it out of
string literals. -/
def lb : Char := Char.ofNat 123

/-- The right-brace character. -/
def rb : Char := Char.ofNat 125

/-- The single-quote character. -/
def squote : Char := Char.ofNat 39

/-- `n` space characters, as used by `json.dumps(..., indent=2)`. -/
def spaces (n : Nat) : List Char := List.replicate n ' '

/-- The digit `d` (`0 ≤ d ≤ 9`) as a character. -/
def digitChar (d : Nat) : Char := Char.ofNat (48 + d)

/-- Decimal digits of `n`, most significant first, using `fuel` as a
structural recursion bound (`fuel = n` suffices). -/
def natCharsAux : Nat → Nat → List Char
  | 0, _ => []
  | f + 1, n => if n = 0 then [] else natCharsAux f (n / 10) ++ [digitChar (n % 10)]

/-- Decimal representation of a natural number, as `str(n)` in Python. -/
def natChars (n : Nat) : List Char := if n = 0 then ['0'] else natCharsAux n n

/-- Decimal representation of an integer, as `str(n)` / `json.dumps(n)`. -/
def intChars (n : Int) : List Char :=
  if n < 0 then '-' :: natChars n.natAbs else natChars n.toNat

/-- JSON string escaping of one character (model of the `json.dumps`
escaper: quote, backslash and the common control characters). -/
def escChar (c : Char) : List Char :=
  if c = '"' then ['\\', '"']
  else if c = '\\' then ['\\', '\\']
  else if c = '\n' then ['\\', 'n']
  else if c = '\t' then ['\\', 't']
  else if c = '\r' then ['\\', 'r']
  else [c]

/-- JSON string escaping of a character list. -/
def escList : List Char → List Char
  | [] => []
  | c :: cs => escChar c ++ escList cs

/-- A JSON string literal: opening quote, escaped body, closing quote. -/
def quoteChars (s : String) : List Char := '"' :: (escList s.data ++ ['"'])

mutual
/-- `json.dumps(j, indent=2)` rendered at indentation level `i`, as a
character list.  Follows the CPython pretty printer: empty containers
render as `[]`/`{}` on one line, non-empty containers put each element on
its own line indented by `i + 2`, separated by `,`. -/
def dumpsAux : Nat → Json → List Char
  | _, Json.null => ['n', 'u', 'l', 'l']
  | _, Json.bool true => ['t', 'r', 'u', 'e']
  | _, Json.bool false => ['f', 'a', 'l', 's', 'e']
  | _, Json.num n => intChars n
  | _, Json.str s => quoteChars s
  | _, Json.arr [] => ['[', ']']
  | i, Json.arr (x :: xs) =>
      '[' :: '\n' :: (spaces (i + 2) ++ (dumpsAux (i + 2) x ++
        (dumpsArr (i + 2) xs ++ ('\n' :: (spaces i ++ [']'])))))
  | _, Json.obj [] => [lb, rb]
  | i, Json.obj (kv :: kvs) =>
      lb :: '\n' :: (spaces (i + 2) ++ (quoteChars kv.1 ++ (':' :: ' ' ::
        (dumpsAux (i + 2) kv.2 ++ (dumpsObj (i + 2) kvs ++
          ('\n' :: (spaces i ++ [rb])))))))

/-- The remaining elements of a non-empty array: `,`, newline, indent,
element, repeated. -/
def dumpsArr : Nat → List Json → List Char
  | _, [] => []
  | i, x :: xs => ',' :: '\n' :: (spaces i ++ (dumpsAux i x ++ dumpsArr i xs))

/-- The remaining members of a non-empty object: `,`, newline, indent,
quoted key, `: `, value, repeated. -/
def dumpsObj : Nat → List (String × Json) → List Char
  | _, [] => []
  | i, kv :: kvs =>
      ',' :: '\n' :: (spaces i ++ (quoteChars kv.1 ++ (':' :: ' ' ::
        (dumpsAux i kv.2 ++ dumpsObj i kvs))))
end

/-- `json.dumps(j, indent=2)`, the string written by `dump_output` to
stdout or a `.json` file. -/
def Json.dumps (j : Json) : String := String.mk (dumpsAux 0 j)

/-! ## A model of `json.loads`

The parser works on character lists, with an explicit fuel argument that
decreases on every recursive call (any fuel larger than the number of
JSON nodes suffices; `Json.parse` passes the input length plus one). -/

/-- JSON whitespace. -/
def isWs (c : Char) : Bool := c = ' ' || c = '\n' || c = '\t' || c = '\r'

/-- Drop leading JSON whitespace. -/
def skipWs : List Char → List Char
  | [] => []
  | c :: cs => if isWs c then skipWs cs else c :: cs

/-- Is `c` a decimal digit? -/
def isDigitC (c : Char) : Bool := 48 ≤ c.toNat && c.toNat ≤ 57

/-- Numeric value of a digit character. -/
def charVal (c : Char) : Nat := c.toNat - 48

/-- Split off the maximal run of leading digits. -/
def takeDigits : List Char → List Char × List Char
  | [] => ([], [])
  | c :: cs =>
      if isDigitC c then
        let p := takeDigits cs
        (c :: p.1, p.2)
      else ([], c :: cs)

/-- Value of a digit run, most significant first. -/
def digitsVal (ds : List Char) : Nat := ds.foldl (fun acc c => 10 * acc + charVal c) 0

/-- Require the exact characters `ps` next, returning what follows. -/
def expectL : List Char → List Char → Option (List Char)
  | [], s => some s
  | _ :: _, [] => none
  | p :: ps, c :: cs => if c = p then expectL ps cs else none

/-- Decode one escape character after a backslash. -/
def unescChar (e : Char) : Option Char :=
  if e = '"' then some '"'
  else if e = '\\' then some '\\'
  else if e = 'n' then some '\n'
  else if e = 't' then some '\t'
  else if e = 'r' then some '\r'
  else none

/-- Parse the body of a string literal (after the opening quote) up to
the closing quote; returns the decoded characters and the remainder. -/
def parseStrAux : List Char → Option (List Char × List Char)
  | [] => none
  | c :: cs =>
      if c = '"' then some ([], cs)
      else if c = '\\' then
        match cs with
        | [] => none
        | e :: cs2 =>
            match unescChar e with
            | none => none
            | some d =>
                match parseStrAux cs2 with
                | none => none
                | some (s, r) => some (d :: s, r)
      else
        match parseStrAux cs with
        | none => none
        | some (s, r) => some (c :: s, r)

/-- Classification of the first character of a JSON value. -/
inductive HeadKind where
  | hNull | hTrue | hFalse | hStr | hNeg | hDigit | hArr | hObj | hBad
deriving DecidableEq

/-- Dispatch on the first character of a JSON value. -/
def headKind (c : Char) : HeadKind :=
  if c = 'n' then .hNull
  else if c = 't' then .hTrue
  else if c = 'f' then .hFalse
  else if c = '"' then .hStr
  else if c = '-' then .hNeg
  else if isDigitC c then .hDigit
  else if c = '[' then .hArr
  else if c = lb then .hObj
  else .hBad

mutual
/-- Parse one JSON value, skipping leading whitespace. -/
def parseV : Nat → List Char → Option (Json × List Char)
  | 0, _ => none
  | f + 1, s =>
      match skipWs s with
      | [] => none
      | c :: cs =>
          match headKind c with
          | .hNull =>
              match expectL ['u', 'l', 'l'] cs with
              | none => none
              | some r => some (Json.null, r)
          | .hTrue =>
              match expectL ['r', 'u', 'e'] cs with
              | none => none
              | some r => some (Json.bool true, r)
          | .hFalse =>
              match expectL ['a', 'l', 's', 'e'] cs with
              | none => none
              | some r => some (Json.bool false, r)
          | .hStr =>
              match parseStrAux cs with
              | none => none
              | some (l, r) => some (Json.str (String.mk l), r)
          | .hNeg =>
              match takeDigits cs with
              | ([], _) => none
              | (ds, r) => some (Json.num (-(Int.ofNat (digitsVal ds))), r)
          | .hDigit =>
              match takeDigits cs with
              | (ds, r) => some (Json.num (Int.ofNat (digitsVal (c :: ds))), r)
          | .hArr =>
              match skipWs cs with
              | [] => none
              | c2 :: cs2 =>
                  if c2 = ']' then some (Json.arr [], cs2)
                  else
                    match parseV f (c2 :: cs2) with
                    | none => none
                    | some (x, r1) =>
                        match parseArrTail f r1 with
                        | none => none
                        | some (xs, r2) => some (Json.arr (x :: xs), r2)
          | .hObj =>
              match skipWs cs with
              | [] => none
              | c2 :: cs2 =>
                  if c2 = rb then some (Json.obj [], cs2)
                  else
                    match parseMember f (c2 :: cs2) with
                    | none => none
                    | some (kv, r1) =>
                        match parseObjTail f r1 with
                        | none => none
                        | some (kvs, r2) => some (Json.obj (kv :: kvs), r2)
          | .hBad => none

/-- After one array element: either `,` and another element, or `]`. -/
def parseArrTail : Nat → List Char → Option (List Json × List Char)
  | 0, _ => none
  | f + 1, s =>
      match skipWs s with
      | [] => none
      | c :: cs =>
          if c = ',' then
            match parseV f cs with
            | none => none
            | some (x, r1) =>
                match parseArrTail f r1 with
                | none => none
                | some (xs, r2) => some (x :: xs, r2)
          else if c = ']' then some ([], cs)
          else none

/-- One object member: quoted key, `:`, value. -/
def parseMember : Nat → List Char → Option ((String × Json) × List Char)
  | 0, _ => none
  | f + 1, s =>
      match skipWs s with
      | [] => none
      | c :: cs =>
          if c = '"' then
            match parseStrAux cs with
            | none => none
            | some (k, r1) =>
                match skipWs r1 with
                | [] => none
                | c2 :: cs2 =>
                    if c2 = ':' then
                      match parseV f cs2 with
                      | none => none
                      | some (v, r2) => some ((String.mk k, v), r2)
                    else none
          else none

/-- After one object member: either `,` and another member, or a
closing brace. -/
def parseObjTail : Nat → List Char → Option (List (String × Json) × List Char)
  | 0, _ => none
  | f + 1, s =>
      match skipWs s with
      | [] => none
      | c :: cs =>
          if c = ',' then
            match parseMember f cs with
            | none => none
            | some (kv, r1) =>
                match parseObjTail f r1 with
                | none => none
                | some (kvs, r2) => some (kv :: kvs, r2)
          else if c = rb then some ([], cs)
          else none
end

/-- `json.loads(s)`: parse one JSON value and require only whitespace
after it. -/
def Json.parse (s : String) : Option Json :=
  match parseV (s.data.length + 1) s.data with
  | none => none
  | some (j, r) => if skipWs r = [] then some j else none

/-! ## The program model

`RunRes` collects the observable effects of (part of) a run:
console lines in order, files written, and the `exit` code if any. -/

/-- Observable effects: printed console lines, files written as
`(path, contents)`, and `exited = some c` when `exit(c)` was reached. -/
structure RunRes where
  printed : List String
  files : List (String × String)
  exited : Option Nat
deriving DecidableEq

/-- The process exit code a run produces: the `exit(c)` argument, or 0
when control falls off the end of `main`. -/
def RunRes.exitCode (r : RunRes) : Nat := r.exited.getD 0

/-- The request method, as restricted by `argparse` (`choices=["get","post"]`). -/
inductive Method where
  | get | post
deriving DecidableEq

/-- Python's `str.endswith`, on the character lists of the strings. -/
def endswith (s suffix : String) : Bool :=
  suffix.data.reverse.isPrefixOf s.data.reverse

mutual
/-- Python's `repr(...)` of a value appearing inside a container being
stringified: strings get single quotes. -/
def pyRepr : Json → String
  | Json.null => "None"
  | Json.bool true => "True"
  | Json.bool false => "False"
  | Json.num n => String.mk (intChars n)
  | Json.str s => String.mk (squote :: s.data ++ [squote])
  | Json.arr xs => String.mk ('[' :: (pyReprArr xs).data ++ [']'])
  | Json.obj kvs => String.mk (lb :: (pyReprObj kvs).data ++ [rb])

def pyReprArr : List Json → String
  | [] => ""
  | [x] => pyRepr x
  | x :: xs => pyRepr x ++ ", " ++ pyReprArr xs

def pyReprObj : List (String × Json) → String
  | [] => ""
  | [kv] => String.mk (squote :: kv.1.data ++ [squote]) ++ ": " ++ pyRepr kv.2
  | kv :: kvs =>
      String.mk (squote :: kv.1.data ++ [squote]) ++ ": " ++ pyRepr kv.2 ++ ", " ++ pyReprObj kvs
end

/-- How `csv.writer` stringifies one entry of `row.values()`: `None`
becomes an empty field, strings are written as-is, and anything else is
written as Python's `str(...)` of it (so `None` nested inside a
container still prints as `None`, via `repr`). -/
def pyStr : Json → String
  | Json.null => ""
  | Json.str s => s
  | Json.arr xs => String.mk ('[' :: (pyReprArr xs).data ++ [']'])
  | Json.obj kvs => String.mk (lb :: (pyReprObj kvs).data ++ [rb])
  | j => pyRepr j

/-- Does `csv.writer` (excel dialect, `QUOTE_MINIMAL`) need to quote this
field? -/
def csvNeedsQuote (s : String) : Bool :=
  s.data.any (fun c => c = ',' || c = '"' || c = '\n' || c = '\r')

/-- Double every double-quote, as CSV quoting does. -/
def dupQuotes : List Char → List Char
  | [] => []
  | c :: cs => if c = '"' then '"' :: '"' :: dupQuotes cs else c :: dupQuotes cs

/-- One CSV field, quoted when necessary. -/
def csvField (s : String) : String :=
  if csvNeedsQuote s then String.mk ('"' :: (dupQuotes s.data ++ ['"'])) else s

/-- `csv.writer.writerow`: comma-separated fields and the excel dialect's
`\r\n` terminator. -/
def csvRow (cells : List String) : String :=
  String.intercalate "," (cells.map csvField) ++ "\r\n"

/-- The type name Python reports for a value, as it appears in an
`AttributeError`. -/
def pyType : Json → String
  | Json.null => "NoneType"
  | Json.bool _ => "bool"
  | Json.num _ => "int"
  | Json.str _ => "str"
  | Json.arr _ => "list"
  | Json.obj _ => "dict"

/-- The message `dump_output` prints when writing raises: here the
`AttributeError` from calling `.keys()`/`.values()` on a non-dict row. -/
def noAttrMsg (j : Json) (attr : String) : String :=
  "Error while writing output: " ++ String.mk [squote] ++ pyType j ++ String.mk [squote] ++
    " object has no attribute " ++ String.mk [squote] ++ attr ++ String.mk [squote]

/-- The data rows of the CSV loop `for row in data: writer.writerow(row.values())`:
returns the content written before any failure, and the first non-dict
row if one is hit (the `AttributeError` that aborts the loop). -/
def csvRows : List Json → String × Option Json
  | [] => ("", none)
  | x :: rest =>
      match x with
      | Json.obj kvs =>
          let p := csvRows rest
          (csvRow ((kvs.map Prod.snd).map pyStr) ++ p.1, p.2)
      | _ => ("", some x)

/-- The `.csv` branch of `dump_output`: guarded by
`isinstance(data, list) and data`; on a non-empty list the file is opened
(created empty), the header row is `data[0].keys()`, and each row is
`row.values()`.  A non-dict element raises `AttributeError`, which the
surrounding `except` turns into a printed error and `exit(1)` — with the
partial file contents already written. -/
def csvDump (p : String) (data : Json) : RunRes :=
  match data with
  | Json.arr (x :: xs) =>
      match x with
      | Json.obj kvs =>
          let header := csvRow (kvs.map Prod.fst)
          match csvRows (Json.obj kvs :: xs) with
          | (content, none) => ⟨[], [(p, header ++ content)], none⟩
          | (content, some bad) => ⟨[noAttrMsg bad "values"], [(p, header ++ content)], some 1⟩
      | bad => ⟨[noAttrMsg bad "keys"], [(p, "")], some 1⟩
  | _ => ⟨["Invalid data format for CSV output."], [], none⟩

/-- `RestfulClient.dump_output(data)` with `self.output = o`: write JSON
to a `.json` path, CSV to a `.csv` path, and pretty-printed JSON to
stdout when no (truthy) output path is set or its extension is anything
else. -/
def dumpOutput (o : Option String) (data : Json) : RunRes :=
  match o with
  | none => ⟨[Json.dumps data], [], none⟩
  | some p =>
      if p = "" then ⟨[Json.dumps data], [], none⟩
      else if endswith p ".json" then ⟨[], [(p, Json.dumps data)], none⟩
      else if endswith p ".csv" then csvDump p data
      else ⟨[Json.dumps data], [], none⟩

/-- The `HTTP Status Code: ...` line printed first for every response. -/
def statusLine (status : Nat) : String := "HTTP Status Code: " ++ toString status

/-- The `HTTP Error: ...` line printed when `raise_for_status` raises
(model of the `requests.HTTPError` message, which names the status). -/
def httpErrLine (status : Nat) : String :=
  "HTTP Error: " ++ toString status ++
    (if status < 500 then " Client Error" else " Server Error")

/-- The `Error: ...` line printed when `response.json()` raises (model of
the `json.JSONDecodeError` message). -/
def jsonErrLine : String := "Error: Expecting value: line 1 column 1 (char 0)"

/-- `RestfulClient.process_response(response)` for a response with the
given status code and body text, with `self.method = method` and
`self.output = output`.  `raise_for_status` raises exactly for
400–599; then the body is parsed as JSON (failure prints an error and
exits 1); a GET dumps the payload; a POST dumps the payload and then
requires status 201, else prints the response text and exits 1. -/
def processResponse (method : Method) (status : Nat) (body : String)
    (output : Option String) : RunRes :=
  if 400 ≤ status ∧ status < 600 then
    ⟨[statusLine status, httpErrLine status], [], some 1⟩
  else
    match Json.parse body with
    | none => ⟨[statusLine status, jsonErrLine], [], some 1⟩
    | some payload =>
        match method with
        | Method.get =>
            ⟨statusLine status :: (dumpOutput output payload).printed,
              (dumpOutput output payload).files,
              (dumpOutput output payload).exited⟩
        | Method.post =>
            match (dumpOutput output payload).exited with
            | some c =>
                ⟨statusLine status :: (dumpOutput output payload).printed,
                  (dumpOutput output payload).files, some c⟩
            | none =>
                if status = 201 then
                  ⟨statusLine status :: (dumpOutput output payload).printed ++
                      ["Post request successful."],
                    (dumpOutput output payload).files, none⟩
                else
                  ⟨statusLine status :: (dumpOutput output payload).printed ++
                      ["Error: " ++ body],
                    (dumpOutput output payload).files, some 1⟩

/-! ## The spec's target-selection policy, for the refinement claim C4 -/

/-- Output sinks, as the spec's `OutputTarget` data model. -/
inductive OutputTarget where
  | stdout : OutputTarget
  | jsonFile (p : String) : OutputTarget
  | csvFile (p : String) : OutputTarget
deriving DecidableEq

/-- The spec's target-selection policy, stated as a total function of the
optional output path: `.json` → JsonFile, `.csv` → CsvFile, absent or any
other ending → Stdout. -/
def specTarget : Option String → OutputTarget
  | none => OutputTarget.stdout
  | some p =>
      if endswith p ".json" then OutputTarget.jsonFile p
      else if endswith p ".csv" then OutputTarget.csvFile p
      else OutputTarget.stdout

/-- Rendering a payload to one selected sink. -/
def renderTo : OutputTarget → Json → RunRes
  | OutputTarget.stdout, j => ⟨[Json.dumps j], [], none⟩
  | OutputTarget.jsonFile p, j => ⟨[], [(p, Json.dumps j)], none⟩
  | OutputTarget.csvFile p, j => csvDump p j

/-! ## Round-trip: `Json.parse` inverts `Json.dumps`

Basic lemmas about whitespace skipping, digit runs, escapes and literal
expectation, followed by the main induction. -/

/-- Eta for strings: rebuilding a string from its characters is the
identity. -/
lemma mk_data (s : String) : String.mk s.data = s := rfl

lemma skipWs_ws (c : Char) (l : List Char) (h : isWs c = true) :
    skipWs (c :: l) = skipWs l := by
  simp [skipWs, h]

lemma skipWs_notWs (c : Char) (l : List Char) (h : isWs c = false) :
    skipWs (c :: l) = c :: l := by
  simp [skipWs, h]

lemma skipWs_spaces (n : Nat) (l : List Char) : skipWs (spaces n ++ l) = skipWs l := by
  induction n with
  | zero => simp [spaces]
  | succ n ih =>
      have : spaces (n + 1) = ' ' :: spaces n := by
        simp [spaces, List.replicate_succ]
      rw [this, List.cons_append, skipWs_ws _ _ (by decide), ih]

/-- Characters whose digit test fails cannot begin a digit run: a list is
"non-digit-start" when it is empty or starts with a non-digit. -/
def nds : List Char → Bool
  | [] => true
  | c :: _ => !isDigitC c

lemma charVal_digitChar (d : Nat) (h : d < 10) : charVal (digitChar d) = d := by
  interval_cases d <;> rfl

lemma isDigitC_digitChar (d : Nat) (h : d < 10) : isDigitC (digitChar d) = true := by
  interval_cases d <;> rfl

lemma not_ws_of_digit (c : Char) (h : isDigitC c = true) : isWs c = false := by
  have h1 : ¬(c = ' ') := fun e => by subst e; exact absurd h (by decide)
  have h2 : ¬(c = '\n') := fun e => by subst e; exact absurd h (by decide)
  have h3 : ¬(c = '\t') := fun e => by subst e; exact absurd h (by decide)
  have h4 : ¬(c = '\r') := fun e => by subst e; exact absurd h (by decide)
  simp [isWs, h1, h2, h3, h4]

lemma digit_ne_rbracket (c : Char) (h : isDigitC c = true) : c ≠ ']' :=
  fun e => absurd (e ▸ h) (by decide)

lemma headKind_digit (c : Char) (h : isDigitC c = true) : headKind c = HeadKind.hDigit := by
  have h1 : ¬(c = 'n') := fun e => by subst e; exact absurd h (by decide)
  have h2 : ¬(c = 't') := fun e => by subst e; exact absurd h (by decide)
  have h3 : ¬(c = 'f') := fun e => by subst e; exact absurd h (by decide)
  have h4 : ¬(c = '"') := fun e => by subst e; exact absurd h (by decide)
  have h5 : ¬(c = '-') := fun e => by subst e; exact absurd h (by decide)
  simp [headKind, h1, h2, h3, h4, h5, h]

lemma natCharsAux_zero (f : Nat) : natCharsAux f 0 = [] := by
  cases f <;> simp [natCharsAux]

lemma natCharsAux_digits (f : Nat) : ∀ n c, c ∈ natCharsAux f n → isDigitC c = true := by
  induction f with
  | zero => intro n c hc; simp [natCharsAux] at hc
  | succ f ih =>
      intro n c hc
      by_cases hn : n = 0
      · subst hn; simp [natCharsAux] at hc
      · simp only [natCharsAux, if_neg hn, List.mem_append, List.mem_singleton] at hc
        rcases hc with hc | hc
        · exact ih _ _ hc
        · subst hc; exact isDigitC_digitChar _ (Nat.mod_lt _ (by norm_num))

lemma digitsVal_append_one (ds : List Char) (c : Char) :
    digitsVal (ds ++ [c]) = 10 * digitsVal ds + charVal c := by
  simp [digitsVal, List.foldl_append]

lemma natCharsAux_val (n : Nat) : ∀ f, n ≤ f → digitsVal (natCharsAux f n) = n := by
  induction n using Nat.strong_induction_on with
  | _ n ih =>
      intro f hf
      cases f with
      | zero =>
          have : n = 0 := by omega
          subst this; simp [natCharsAux, digitsVal]
      | succ f =>
          by_cases hn : n = 0
          · subst hn; simp [natCharsAux_zero, digitsVal]
          · have hlt : n / 10 < n := Nat.div_lt_self (by omega) (by norm_num)
            have hrec := ih (n / 10) hlt f (by omega)
            simp only [natCharsAux, if_neg hn, digitsVal_append_one, hrec,
              charVal_digitChar (n % 10) (Nat.mod_lt _ (by norm_num))]
            omega

lemma natChars_digits (n : Nat) : ∀ c ∈ natChars n, isDigitC c = true := by
  intro c hc
  by_cases hn : n = 0
  · subst hn; simp [natChars] at hc; subst hc; decide
  · simp only [natChars, if_neg hn] at hc
    exact natCharsAux_digits n n c hc

lemma natChars_val (n : Nat) : digitsVal (natChars n) = n := by
  by_cases hn : n = 0
  · subst hn; decide
  · simp only [natChars, if_neg hn]
    exact natCharsAux_val n n le_rfl

lemma natChars_cons (n : Nat) : ∃ c cs, natChars n = c :: cs ∧ isDigitC c = true := by
  have hne : natChars n ≠ [] := by
    by_cases hn : n = 0
    · subst hn; decide
    · simp only [natChars, if_neg hn]
      cases n with
      | zero => exact absurd rfl hn
      | succ m =>
          simp only [natCharsAux, if_neg hn]
          exact fun h => by simp at h
  cases h : natChars n with
  | nil => exact absurd h hne
  | cons c cs =>
      exact ⟨c, cs, rfl, natChars_digits n c (h ▸ List.mem_cons_self c cs)⟩

lemma takeDigits_exact (ds r : List Char) (hds : ∀ c ∈ ds, isDigitC c = true)
    (hr : nds r = true) : takeDigits (ds ++ r) = (ds, r) := by
  induction ds with
  | nil =>
      cases r with
      | nil => rfl
      | cons c r' =>
          have : isDigitC c = false := by
            simpa [nds] using hr
          simp [takeDigits, this]
  | cons c ds ih =>
      have hc : isDigitC c = true := hds c (List.mem_cons_self c ds)
      have hds' : ∀ c' ∈ ds, isDigitC c' = true := fun c' h => hds c' (List.mem_cons_of_mem _ h)
      simp [takeDigits, hc, ih hds']

lemma expectL_exact (ps r : List Char) : expectL ps (ps ++ r) = some r := by
  induction ps with
  | nil => rfl
  | cons p ps ih => simp [expectL, ih]

lemma parseStr_esc (l r : List Char) :
    parseStrAux (escList l ++ '"' :: r) = some (l, r) := by
  induction l with
  | nil =>
      simp only [escList, List.nil_append]
      rw [parseStrAux.eq_def]
      simp
  | cons c cs ih =>
      by_cases h1 : c = '"'
      · subst h1; simp [escList, escChar, parseStrAux, unescChar, ih]
      · by_cases h2 : c = '\\'
        · subst h2; simp [escList, escChar, parseStrAux, unescChar, ih]
        · by_cases h3 : c = '\n'
          · subst h3; simp [escList, escChar, parseStrAux, unescChar, ih]
          · by_cases h4 : c = '\t'
            · subst h4; simp [escList, escChar, parseStrAux, unescChar, ih]
            · by_cases h5 : c = '\r'
              · subst h5; simp [escList, escChar, parseStrAux, unescChar, ih]
              · have he : escChar c = [c] := by simp [escChar, h1, h2, h3, h4, h5]
                simp only [escList, he, List.cons_append, List.nil_append]
                rw [parseStrAux.eq_def]
                simp [h1, h2, ih]

mutual
/-- Parser fuel sufficient for one dumped value (counts one unit per
parser call). -/
def fuelFor : Json → Nat
  | Json.null => 1
  | Json.bool _ => 1
  | Json.num _ => 1
  | Json.str _ => 1
  | Json.arr [] => 1
  | Json.arr (x :: xs) => 1 + fuelFor x + fuelArrT xs
  | Json.obj [] => 1
  | Json.obj (kv :: kvs) => 2 + fuelFor kv.2 + fuelObjT kvs

/-- Fuel for the tail of an array. -/
def fuelArrT : List Json → Nat
  | [] => 1
  | x :: xs => 1 + fuelFor x + fuelArrT xs

/-- Fuel for the tail of an object. -/
def fuelObjT : List (String × Json) → Nat
  | [] => 1
  | kv :: kvs => 2 + fuelFor kv.2 + fuelObjT kvs
end

lemma fuelFor_pos (j : Json) : 1 ≤ fuelFor j := by
  cases j with
  | null => simp [fuelFor]
  | bool b => simp [fuelFor]
  | num n => simp [fuelFor]
  | str s => simp [fuelFor]
  | arr xs => cases xs <;> simp [fuelFor] <;> omega
  | obj kvs => cases kvs <;> simp [fuelFor] <;> omega

lemma fuelArrT_pos (xs : List Json) : 1 ≤ fuelArrT xs := by
  cases xs <;> simp [fuelArrT] <;> omega

lemma fuelObjT_pos (kvs : List (String × Json)) : 1 ≤ fuelObjT kvs := by
  cases kvs <;> simp [fuelObjT] <;> omega

/-- Structural induction over `Json` with element-wise hypotheses for the
nested lists. -/
theorem Json.myInd (P : Json → Prop)
    (hnull : P Json.null) (hbool : ∀ b, P (Json.bool b))
    (hnum : ∀ n, P (Json.num n)) (hstr : ∀ s, P (Json.str s))
    (harr : ∀ xs, (∀ x ∈ xs, P x) → P (Json.arr xs))
    (hobj : ∀ kvs, (∀ kv ∈ kvs, P kv.2) → P (Json.obj kvs)) :
    ∀ j, P j
  | Json.null => hnull
  | Json.bool b => hbool b
  | Json.num n => hnum n
  | Json.str s => hstr s
  | Json.arr xs =>
      harr xs (fun x hx => Json.myInd P hnull hbool hnum hstr harr hobj x)
  | Json.obj kvs =>
      hobj kvs (fun kv hkv => Json.myInd P hnull hbool hnum hstr harr hobj kv.2)
termination_by j => sizeOf j
decreasing_by
  · have h1 := List.sizeOf_lt_of_mem hx
    simp only [Json.arr.sizeOf_spec]
    omega
  · have h1 := List.sizeOf_lt_of_mem hkv
    rcases kv with ⟨k, v⟩
    simp only [Json.obj.sizeOf_spec, Prod.mk.sizeOf_spec] at *
    omega

/-- Every dumped value starts with a non-whitespace character that is not
a closing bracket. -/
lemma dumps_head (i : Nat) (j : Json) :
    ∃ c cs, dumpsAux i j = c :: cs ∧ isWs c = false ∧ c ≠ ']' := by
  cases j with
  | null => exact ⟨'n', _, rfl, by decide, by decide⟩
  | bool b =>
      cases b with
      | false => exact ⟨'f', _, rfl, by decide, by decide⟩
      | true => exact ⟨'t', _, rfl, by decide, by decide⟩
  | num n =>
      by_cases hn : n < 0
      · refine ⟨'-', natChars n.natAbs, ?_, by decide, by decide⟩
        simp [dumpsAux, intChars, hn]
      · obtain ⟨c, cs, hcs, hc⟩ := natChars_cons n.toNat
        refine ⟨c, cs, ?_, not_ws_of_digit c hc, digit_ne_rbracket c hc⟩
        simp [dumpsAux, intChars, hn, hcs]
  | str s => exact ⟨'"', _, rfl, by decide, by decide⟩
  | arr xs =>
      cases xs with
      | nil => exact ⟨'[', _, rfl, by decide, by decide⟩
      | cons x xs => exact ⟨'[', _, rfl, by decide, by decide⟩
  | obj kvs =>
      cases kvs with
      | nil => exact ⟨lb, _, rfl, by decide, by decide⟩
      | cons kv kvs => exact ⟨lb, _, rfl, by decide, by decide⟩

/-- What follows an array element in dumped output never starts with a
digit. -/
lemma nds_dumpsArr (i : Nat) (xs : List Json) (l : List Char) :
    nds (dumpsArr i xs ++ '\n' :: l) = true := by
  cases xs with
  | nil => simp [dumpsArr, nds]; decide
  | cons x xs => simp [dumpsArr, nds]; decide

/-- What follows an object value in dumped output never starts with a
digit. -/
lemma nds_dumpsObj (i : Nat) (kvs : List (String × Json)) (l : List Char) :
    nds (dumpsObj i kvs ++ '\n' :: l) = true := by
  cases kvs with
  | nil => simp [dumpsObj, nds]; decide
  | cons kv kvs => simp [dumpsObj, nds]; decide

/-- The statement of the main round-trip induction: a dumped value
followed by any non-digit-start suffix parses back to itself, leaving
exactly that suffix, at any sufficient fuel. -/
def ParseGood (j : Json) : Prop :=
  ∀ i rest fuel, nds rest = true → fuelFor j ≤ fuel →
    parseV fuel (dumpsAux i j ++ rest) = some (j, rest)

lemma parseV_ws_cons (f : Nat) (c : Char) (l : List Char) (h : isWs c = true) :
    parseV (f + 1) (c :: l) = parseV (f + 1) l := by
  simp only [parseV, skipWs_ws c l h]

lemma parseV_spaces (f n : Nat) (l : List Char) :
    parseV (f + 1) (spaces n ++ l) = parseV (f + 1) l := by
  induction n with
  | zero => simp [spaces]
  | succ n ih =>
      have hs : spaces (n + 1) = ' ' :: spaces n := by simp [spaces, List.replicate_succ]
      rw [hs, List.cons_append, parseV_ws_cons _ _ _ (by decide), ih]

lemma parseMember_ws_cons (f : Nat) (c : Char) (l : List Char) (h : isWs c = true) :
    parseMember (f + 1) (c :: l) = parseMember (f + 1) l := by
  simp only [parseMember, skipWs_ws c l h]

lemma parseMember_spaces (f n : Nat) (l : List Char) :
    parseMember (f + 1) (spaces n ++ l) = parseMember (f + 1) l := by
  induction n with
  | zero => simp [spaces]
  | succ n ih =>
      have hs : spaces (n + 1) = ' ' :: spaces n := by simp [spaces, List.replicate_succ]
      rw [hs, List.cons_append, parseMember_ws_cons _ _ _ (by decide), ih]

lemma parseV_quote_eq (f : Nat) (l : List Char) :
    parseV (f + 1) ('"' :: l) =
      match parseStrAux l with
      | none => none
      | some (k, r) => some (Json.str (String.mk k), r) := rfl

lemma parseV_neg_eq (f : Nat) (l : List Char) :
    parseV (f + 1) ('-' :: l) =
      match takeDigits l with
      | ([], _) => none
      | (ds, r) => some (Json.num (-(Int.ofNat (digitsVal ds))), r) := rfl

lemma parseV_lbracket_eq (f : Nat) (l : List Char) :
    parseV (f + 1) ('[' :: l) =
      match skipWs l with
      | [] => none
      | c2 :: cs2 =>
          if c2 = ']' then some (Json.arr [], cs2)
          else
            match parseV f (c2 :: cs2) with
            | none => none
            | some (x, r1) =>
                match parseArrTail f r1 with
                | none => none
                | some (xs, r2) => some (Json.arr (x :: xs), r2) := rfl

lemma parseV_lbrace_eq (f : Nat) (l : List Char) :
    parseV (f + 1) (lb :: l) =
      match skipWs l with
      | [] => none
      | c2 :: cs2 =>
          if c2 = rb then some (Json.obj [], cs2)
          else
            match parseMember f (c2 :: cs2) with
            | none => none
            | some (kv, r1) =>
                match parseObjTail f r1 with
                | none => none
                | some (kvs, r2) => some (Json.obj (kv :: kvs), r2) := rfl

lemma parseV_digit_eq (f : Nat) (c : Char) (l : List Char) (h : isDigitC c = true) :
    parseV (f + 1) (c :: l) =
      match takeDigits l with
      | (ds, r) => some (Json.num (Int.ofNat (digitsVal (c :: ds))), r) := by
  simp only [parseV]
  rw [skipWs_notWs c l (not_ws_of_digit c h)]
  simp only [headKind_digit c h]

lemma parseArrTail_comma_eq (f : Nat) (l : List Char) :
    parseArrTail (f + 1) (',' :: l) =
      match parseV f l with
      | none => none
      | some (x, r1) =>
          match parseArrTail f r1 with
          | none => none
          | some (xs, r2) => some (x :: xs, r2) := rfl

lemma parseArrTail_close (f k : Nat) (rest : List Char) :
    parseArrTail (f + 1) ('\n' :: (spaces k ++ (']' :: rest))) = some ([], rest) := by
  have hskip : skipWs ('\n' :: (spaces k ++ (']' :: rest))) = ']' :: rest := by
    rw [skipWs_ws _ _ (by decide), skipWs_spaces, skipWs_notWs _ _ (by decide)]
  simp only [parseArrTail, hskip]
  rw [if_neg (by decide), if_pos (by decide)]

lemma parseObjTail_comma_eq (f : Nat) (l : List Char) :
    parseObjTail (f + 1) (',' :: l) =
      match parseMember f l with
      | none => none
      | some (kv, r1) =>
          match parseObjTail f r1 with
          | none => none
          | some (kvs, r2) => some (kv :: kvs, r2) := rfl

lemma parseObjTail_close (f k : Nat) (rest : List Char) :
    parseObjTail (f + 1) ('\n' :: (spaces k ++ (rb :: rest))) = some ([], rest) := by
  have hskip : skipWs ('\n' :: (spaces k ++ (rb :: rest))) = rb :: rest := by
    rw [skipWs_ws _ _ (by decide), skipWs_spaces, skipWs_notWs _ _ (by decide)]
  simp only [parseObjTail, hskip]
  rw [if_neg (by decide), if_pos (by decide)]

/-- An object member as dumped (key, colon, space, value) parses to the
pair, leaving the suffix. -/
lemma member_good (k : String) (v : Json) (hv : ParseGood v) :
    ∀ iv rest fuel, nds rest = true → 1 + fuelFor v ≤ fuel →
      parseMember fuel ('"' :: (escList k.data ++ ('"' :: (':' :: (' ' ::
          (dumpsAux iv v ++ rest)))))) = some ((k, v), rest) := by
  intro iv rest fuel hr hf
  obtain ⟨f, rfl⟩ : ∃ f, fuel = f + 1 := ⟨fuel - 1, by omega⟩
  have h1 : parseStrAux (escList k.data ++ ('"' :: (':' :: (' ' :: (dumpsAux iv v ++ rest))))) =
      some (k.data, ':' :: (' ' :: (dumpsAux iv v ++ rest))) := parseStr_esc _ _
  have hquote : skipWs ('"' :: (escList k.data ++ ('"' :: (':' :: (' ' ::
      (dumpsAux iv v ++ rest)))))) = '"' :: (escList k.data ++ ('"' :: (':' :: (' ' ::
      (dumpsAux iv v ++ rest))))) := skipWs_notWs _ _ (by decide)
  simp only [parseMember, hquote]
  rw [if_pos (by decide), h1]
  have hcolon : skipWs (':' :: (' ' :: (dumpsAux iv v ++ rest))) =
      ':' :: (' ' :: (dumpsAux iv v ++ rest)) := skipWs_notWs _ _ (by decide)
  simp only [hcolon]
  rw [if_pos (by decide)]
  obtain ⟨f', rfl⟩ : ∃ f', f = f' + 1 := ⟨f - 1, by have := fuelFor_pos v; omega⟩
  rw [parseV_ws_cons _ _ _ (by decide)]
  rw [hv iv rest (f' + 1) hr (by omega)]

/-- The dumped tail of an array followed by its closing line parses to
the list of remaining elements. -/
lemma arrTail_good (xs : List Json) (hx : ∀ x ∈ xs, ParseGood x) :
    ∀ i k rest fuel, fuelArrT xs ≤ fuel →
      parseArrTail fuel (dumpsArr i xs ++ ('\n' :: (spaces k ++ (']' :: rest)))) =
        some (xs, rest) := by
  induction xs with
  | nil =>
      intro i k rest fuel hf
      obtain ⟨f, rfl⟩ : ∃ f, fuel = f + 1 :=
        ⟨fuel - 1, by have := fuelArrT_pos ([] : List Json); omega⟩
      simp only [dumpsArr, List.nil_append]
      exact parseArrTail_close f k rest
  | cons x xs ih =>
      intro i k rest fuel hf
      simp only [fuelArrT] at hf
      have hpx := fuelFor_pos x
      have hpxs := fuelArrT_pos xs
      obtain ⟨f, rfl⟩ : ∃ f, fuel = f + 1 := ⟨fuel - 1, by omega⟩
      have hshape : dumpsArr i (x :: xs) ++ ('\n' :: (spaces k ++ (']' :: rest))) =
          ',' :: ('\n' :: (spaces i ++ (dumpsAux i x ++
            (dumpsArr i xs ++ ('\n' :: (spaces k ++ (']' :: rest))))))) := by
        simp [dumpsArr, List.append_assoc]
      rw [hshape, parseArrTail_comma_eq]
      obtain ⟨f', rfl⟩ : ∃ f', f = f' + 1 := ⟨f - 1, by omega⟩
      rw [parseV_ws_cons _ _ _ (by decide), parseV_spaces]
      have hxs : ∀ y ∈ xs, ParseGood y := fun y hy => hx y (List.mem_cons_of_mem _ hy)
      simp only [hx x (List.mem_cons_self x xs) i _ (f' + 1) (nds_dumpsArr i xs _) (by omega),
        ih hxs i k rest (f' + 1) (by omega)]

/-- The dumped tail of an object followed by its closing line parses to
the list of remaining members. -/
lemma objTail_good (kvs : List (String × Json)) (hx : ∀ kv ∈ kvs, ParseGood kv.2) :
    ∀ i k rest fuel, fuelObjT kvs ≤ fuel →
      parseObjTail fuel (dumpsObj i kvs ++ ('\n' :: (spaces k ++ (rb :: rest)))) =
        some (kvs, rest) := by
  induction kvs with
  | nil =>
      intro i k rest fuel hf
      obtain ⟨f, rfl⟩ : ∃ f, fuel = f + 1 :=
        ⟨fuel - 1, by have := fuelObjT_pos ([] : List (String × Json)); omega⟩
      simp only [dumpsObj, List.nil_append]
      exact parseObjTail_close f k rest
  | cons kv kvs ih =>
      intro i k rest fuel hf
      obtain ⟨ky, v⟩ := kv
      simp only [fuelObjT] at hf
      have hpv := fuelFor_pos v
      have hpkvs := fuelObjT_pos kvs
      obtain ⟨f, rfl⟩ : ∃ f, fuel = f + 1 := ⟨fuel - 1, by omega⟩
      have hshape : dumpsObj i ((ky, v) :: kvs) ++ ('\n' :: (spaces k ++ (rb :: rest))) =
          ',' :: ('\n' :: (spaces i ++ ('"' :: (escList ky.data ++ ('"' :: (':' :: (' ' ::
            (dumpsAux i v ++ (dumpsObj i kvs ++ ('\n' :: (spaces k ++ (rb :: rest)))))))))))) := by
        simp [dumpsObj, quoteChars, List.append_assoc]
      rw [hshape, parseObjTail_comma_eq]
      obtain ⟨f', rfl⟩ : ∃ f', f = f' + 1 := ⟨f - 1, by omega⟩
      rw [parseMember_ws_cons _ _ _ (by decide), parseMember_spaces]
      have hkvs : ∀ kv ∈ kvs, ParseGood kv.2 := fun kv hkv => hx kv (List.mem_cons_of_mem _ hkv)
      simp only [member_good ky v (hx (ky, v) (List.mem_cons_self _ _)) i _ (f' + 1)
        (nds_dumpsObj i kvs _) (by omega),
        ih hkvs i k rest (f' + 1) (by omega)]

/-- Every dumped JSON value parses back to itself. -/
theorem parse_good : ∀ j, ParseGood j := by
  refine Json.myInd ParseGood ?_ ?_ ?_ ?_ ?_ ?_
  · -- null
    intro i rest fuel hr hf
    obtain ⟨f, rfl⟩ : ∃ f, fuel = f + 1 := ⟨fuel - 1, by simp [fuelFor] at hf; omega⟩
    rfl
  · -- bool
    intro b i rest fuel hr hf
    obtain ⟨f, rfl⟩ : ∃ f, fuel = f + 1 := ⟨fuel - 1, by simp [fuelFor] at hf; omega⟩
    cases b <;> rfl
  · -- num
    intro n i rest fuel hr hf
    obtain ⟨f, rfl⟩ : ∃ f, fuel = f + 1 := ⟨fuel - 1, by simp [fuelFor] at hf; omega⟩
    by_cases hn : n < 0
    · obtain ⟨c, cs, hcs, hc⟩ := natChars_cons n.natAbs
      have ht : takeDigits (natChars n.natAbs ++ rest) = (natChars n.natAbs, rest) :=
        takeDigits_exact _ _ (natChars_digits _) hr
      have hshape : dumpsAux i (Json.num n) ++ rest = '-' :: (natChars n.natAbs ++ rest) := by
        simp [dumpsAux, intChars, hn]
      rw [hshape, parseV_neg_eq, ht, hcs]
      have hval : digitsVal (c :: cs) = n.natAbs := by rw [← hcs, natChars_val]
      have hneg : -((digitsVal (c :: cs) : Int)) = n := by rw [hval]; omega
      simp [hneg]
    · obtain ⟨c, cs, hcs, hc⟩ := natChars_cons n.toNat
      have hshape : dumpsAux i (Json.num n) ++ rest = c :: (cs ++ rest) := by
        simp [dumpsAux, intChars, hn, hcs]
      rw [hshape, parseV_digit_eq f c _ hc]
      have hcs_digits : ∀ d ∈ cs, isDigitC d = true := fun d hd =>
        natChars_digits n.toNat d (hcs ▸ List.mem_cons_of_mem _ hd)
      rw [takeDigits_exact cs rest hcs_digits hr]
      have hval : digitsVal (c :: cs) = n.toNat := by rw [← hcs, natChars_val]
      have hpos : ((digitsVal (c :: cs) : Int)) = n := by rw [hval]; omega
      simp [hpos]
  · -- str
    intro s i rest fuel hr hf
    obtain ⟨f, rfl⟩ : ∃ f, fuel = f + 1 := ⟨fuel - 1, by simp [fuelFor] at hf; omega⟩
    have hshape : dumpsAux i (Json.str s) ++ rest = '"' :: (escList s.data ++ ('"' :: rest)) := by
      simp [dumpsAux, quoteChars]
    rw [hshape, parseV_quote_eq]
    simp only [parseStr_esc, mk_data]
  · -- arr
    intro xs hxs i rest fuel hr hf
    cases xs with
    | nil =>
        obtain ⟨f, rfl⟩ : ∃ f, fuel = f + 1 := ⟨fuel - 1, by simp [fuelFor] at hf; omega⟩
        rfl
    | cons x xs =>
        simp only [fuelFor] at hf
        have hpx := fuelFor_pos x
        have hpxs := fuelArrT_pos xs
        obtain ⟨f, rfl⟩ : ∃ f, fuel = f + 1 := ⟨fuel - 1, by omega⟩
        have hshape : dumpsAux i (Json.arr (x :: xs)) ++ rest =
            '[' :: ('\n' :: (spaces (i + 2) ++ (dumpsAux (i + 2) x ++
              (dumpsArr (i + 2) xs ++ ('\n' :: (spaces i ++ (']' :: rest))))))) := by
          simp [dumpsAux, List.append_assoc]
        rw [hshape, parseV_lbracket_eq]
        obtain ⟨c, cs, hcs, hcws, hcne⟩ := dumps_head (i + 2) x
        have hskip : skipWs ('\n' :: (spaces (i + 2) ++ (dumpsAux (i + 2) x ++
            (dumpsArr (i + 2) xs ++ ('\n' :: (spaces i ++ (']' :: rest))))))) =
            c :: (cs ++ (dumpsArr (i + 2) xs ++ ('\n' :: (spaces i ++ (']' :: rest))))) := by
          rw [skipWs_ws _ _ (by decide), skipWs_spaces, hcs, List.cons_append,
            skipWs_notWs _ _ hcws]
        simp only [hskip]
        rw [if_neg hcne, ← List.cons_append, ← hcs]
        simp only [hxs x (List.mem_cons_self _ _) (i + 2) _ f (nds_dumpsArr _ _ _) (by omega),
          arrTail_good xs (fun y hy => hxs y (List.mem_cons_of_mem _ hy)) (i + 2) i rest f
            (by omega)]
  · -- obj
    intro kvs hkvs i rest fuel hr hf
    cases kvs with
    | nil =>
        obtain ⟨f, rfl⟩ : ∃ f, fuel = f + 1 := ⟨fuel - 1, by simp [fuelFor] at hf; omega⟩
        rfl
    | cons kv kvs =>
        obtain ⟨ky, v⟩ := kv
        simp only [fuelFor] at hf
        have hpv := fuelFor_pos v
        have hpkvs := fuelObjT_pos kvs
        obtain ⟨f, rfl⟩ : ∃ f, fuel = f + 1 := ⟨fuel - 1, by omega⟩
        have hshape : dumpsAux i (Json.obj ((ky, v) :: kvs)) ++ rest =
            lb :: ('\n' :: (spaces (i + 2) ++ ('"' :: (escList ky.data ++ ('"' :: (':' :: (' ' ::
              (dumpsAux (i + 2) v ++ (dumpsObj (i + 2) kvs ++
                ('\n' :: (spaces i ++ (rb :: rest)))))))))))) := by
          simp [dumpsAux, quoteChars, List.append_assoc]
        rw [hshape, parseV_lbrace_eq]
        have hskip : skipWs ('\n' :: (spaces (i + 2) ++ ('"' :: (escList ky.data ++ ('"' :: (':' ::
            (' ' :: (dumpsAux (i + 2) v ++ (dumpsObj (i + 2) kvs ++
              ('\n' :: (spaces i ++ (rb :: rest)))))))))))) =
            '"' :: (escList ky.data ++ ('"' :: (':' :: (' ' :: (dumpsAux (i + 2) v ++
              (dumpsObj (i + 2) kvs ++ ('\n' :: (spaces i ++ (rb :: rest))))))))) := by
          rw [skipWs_ws _ _ (by decide), skipWs_spaces, skipWs_notWs _ _ (by decide)]
        simp only [hskip]
        rw [if_neg (by decide : ¬('"' = rb))]
        simp only [member_good ky v (hkvs (ky, v) (List.mem_cons_self _ _)) (i + 2) _ f
            (nds_dumpsObj _ _ _) (by omega),
          objTail_good kvs (fun kv hkv => hkvs kv (List.mem_cons_of_mem _ hkv)) (i + 2) i rest f
            (by omega)]

/-- The parser fuel needed for a value is at most the length of its
dumped text plus one. -/
lemma fuelFor_le : ∀ j, ∀ i, fuelFor j ≤ (dumpsAux i j).length + 1 := by
  refine Json.myInd _ ?_ ?_ ?_ ?_ ?_ ?_
  · intro i; simp [fuelFor]
  · intro b i; cases b <;> simp [fuelFor]
  · intro n i; simp [fuelFor]
  · intro s i; simp [fuelFor]
  · intro xs hxs i
    cases xs with
    | nil => simp [fuelFor, dumpsAux]
    | cons x xs =>
        have htail : ∀ ys, (∀ y ∈ ys, ∀ i2, fuelFor y ≤ (dumpsAux i2 y).length + 1) →
            ∀ i2, fuelArrT ys ≤ (dumpsArr i2 ys).length + 1 := by
          intro ys
          induction ys with
          | nil => intro _ i2; simp [fuelArrT, dumpsArr]
          | cons y ys ih =>
              intro hy i2
              have h1 := hy y (List.mem_cons_self _ _) i2
              have h2 := ih (fun z hz => hy z (List.mem_cons_of_mem _ hz)) i2
              simp only [fuelArrT, dumpsArr, List.length_cons, List.length_append, spaces,
                List.length_replicate]
              omega
        have h1 := hxs x (List.mem_cons_self _ _) (i + 2)
        have h2 := htail xs (fun y hy => hxs y (List.mem_cons_of_mem _ hy)) (i + 2)
        simp only [fuelFor, dumpsAux, List.length_cons, List.length_append, spaces,
          List.length_replicate]
        omega
  · intro kvs hkvs i
    cases kvs with
    | nil => simp [fuelFor, dumpsAux]
    | cons kv kvs =>
        have htail : ∀ ys, (∀ y ∈ ys, ∀ i2, fuelFor y.2 ≤ (dumpsAux i2 y.2).length + 1) →
            ∀ i2, fuelObjT ys ≤ (dumpsObj i2 ys).length + 1 := by
          intro ys
          induction ys with
          | nil => intro _ i2; simp [fuelObjT, dumpsObj]
          | cons y ys ih =>
              intro hy i2
              have h1 := hy y (List.mem_cons_self _ _) i2
              have h2 := ih (fun z hz => hy z (List.mem_cons_of_mem _ hz)) i2
              simp only [fuelObjT, dumpsObj, List.length_cons, List.length_append, spaces,
                List.length_replicate, quoteChars]
              omega
        have h1 := hkvs kv (List.mem_cons_self _ _) (i + 2)
        have h2 := htail kvs (fun y hy => hkvs y (List.mem_cons_of_mem _ hy)) (i + 2)
        simp only [fuelFor, dumpsAux, List.length_cons, List.length_append, spaces,
          List.length_replicate, quoteChars]
        omega

/-- Round-trip at the level of the serializer model: parsing a dumped
value gives back exactly that value. -/
theorem parse_dumps (j : Json) : Json.parse (Json.dumps j) = some j := by
  have hg := parse_good j 0 [] ((dumpsAux 0 j).length + 1) rfl (fuelFor_le j 0)
  rw [List.append_nil] at hg
  simp only [Json.parse, Json.dumps]
  rw [hg]
  rfl

/-! ## Helpers for stating the CSV claims -/

/-- Python's guard `isinstance(data, list) and data`: a non-empty list. -/
def isTruthyList : Json → Bool
  | Json.arr (_ :: _) => true
  | _ => false

/-- C1 (amended): for every response whose status code is in the 4xx or
5xx range (the range `raise_for_status` raises for), both GET and POST
print the status-code line and an HTTP error message, exit with code 1,
and write no output file. -/
theorem http_error_exits_one (m : Method) (status : Nat) (body : String)
    (output : Option String) (h1 : 400 ≤ status) (h2 : status < 600) :
    processResponse m status body output =
      ⟨[statusLine status, httpErrLine status], [], some 1⟩ := by
  simp [processResponse, h1, h2]

/-- C1 witness: a 404 (for a GET with an output file selected) prints
`HTTP Status Code: 404`, exits 1, and writes no file. -/
theorem http_error_exits_one_witness :
    400 ≤ 404 ∧ 404 < 600 ∧
      processResponse Method.get 404 "Not Found" (some "out.json") =
        ⟨["HTTP Status Code: 404", httpErrLine 404], [], some 1⟩ :=
  ⟨by decide, by decide,
    http_error_exits_one Method.get 404 "Not Found" (some "out.json") (by decide) (by decide)⟩

/-- C1 counterexample to the claim as stated: a 304 response is not in
the 2xx range, yet the program does not exit 1, prints no error message,
and proceeds to dump the (parsed) body — `raise_for_status` only raises
for 4xx/5xx. -/
theorem http_error_claim_counterexample :
    processResponse Method.get 304 "\x7b\x7d" none =
        ⟨["HTTP Status Code: 304", "\x7b\x7d"], [], none⟩ ∧
      (processResponse Method.get 304 "\x7b\x7d" none).exitCode = 0 := ⟨rfl, rfl⟩

/-- C10: for every response processed — any method, status, body and
output target — the very first console line of the run is
`HTTP Status Code: <code>`, so it precedes any payload rendered to
stdout. -/
theorem status_line_printed_first (m : Method) (status : Nat) (body : String)
    (output : Option String) :
    (processResponse m status body output).printed.head? = some (statusLine status) := by
  by_cases h : 400 ≤ status ∧ status < 600
  · simp [processResponse, h]
  · cases hp : Json.parse body with
    | none => simp [processResponse, h, hp]
    | some payload =>
        cases m with
        | get => simp [processResponse, h, hp]
        | post =>
            cases hd : (dumpOutput output payload).exited with
            | some c => simp [processResponse, h, hp, hd]
            | none =>
                by_cases hs : status = 201
                · simp [processResponse, h, hp, hd, hs]
                · simp [processResponse, h, hp, hd, hs]

/-- C4: output-target selection is a total function of the optional
output path — `.json` chooses the JSON file sink, `.csv` the CSV file
sink, and an absent path or any other ending falls back to stdout —
and `dump_output` factors through it. -/
theorem target_selection_total (o : Option String) (j : Json) :
    dumpOutput o j = renderTo (specTarget o) j := by
  cases o with
  | none => rfl
  | some p =>
      by_cases hp : p = ""
      · subst hp; rfl
      · by_cases h1 : endswith p ".json"
        · simp [dumpOutput, specTarget, renderTo, hp, h1]
        · by_cases h2 : endswith p ".csv"
          · simp [dumpOutput, specTarget, renderTo, hp, h1, h2]
          · simp [dumpOutput, specTarget, renderTo, hp, h1, h2]

/-- C8: writing any payload to a `.json` output target produces exactly
one file whose content parses back as JSON to a value structurally
identical to the payload. -/
theorem json_file_roundtrip (j : Json) (p : String) (hp : endswith p ".json" = true) :
    ∃ content, (dumpOutput (some p) j).files = [(p, content)] ∧
      Json.parse content = some j := by
  refine ⟨Json.dumps j, ?_, parse_dumps j⟩
  have hpe : p ≠ "" := by
    intro e; subst e; exact absurd hp (by decide)
  simp [dumpOutput, hpe, hp]

/-- C8 witness: a nested payload written to `o.json` reads back
structurally identical. -/
theorem json_file_roundtrip_witness :
    endswith "o.json" ".json" = true ∧
      ∃ content,
        (dumpOutput (some "o.json")
            (Json.obj [("id", Json.num 1), ("tags", Json.arr [Json.str "a", Json.null])])).files =
          [("o.json", content)] ∧
        Json.parse content =
          some (Json.obj [("id", Json.num 1), ("tags", Json.arr [Json.str "a", Json.null])]) :=
  ⟨by decide,
    json_file_roundtrip (Json.obj [("id", Json.num 1), ("tags", Json.arr [Json.str "a", Json.null])])
      "o.json" (by decide)⟩

/-- C3 (amended): for every payload that is not a non-empty list (the
code checks only `isinstance(data, list) and data`, not that elements
are mappings), serializing to a CSV target prints exactly
`Invalid data format for CSV output.`, writes no file, and does not
exit — a soft failure.  (A non-empty list of non-mappings instead hits
the fatal write-error path, see the counterexample.) -/
theorem csv_invalid_soft (p : String) (data : Json)
    (hp : p ≠ "") (hj : endswith p ".json" = false) (hc : endswith p ".csv" = true)
    (hd : isTruthyList data = false) :
    dumpOutput (some p) data =
      ⟨["Invalid data format for CSV output."], [], none⟩ := by
  simp only [dumpOutput, if_neg hp, hj, Bool.false_eq_true, if_false, hc, if_true]
  cases data with
  | arr xs =>
      cases xs with
      | nil => rfl
      | cons x xs => simp [isTruthyList] at hd
  | null => rfl
  | bool b => rfl
  | num n => rfl
  | str s => rfl
  | obj kvs => rfl

/-- C3 witness: the spec's own example — a single mapping payload with a
`.csv` target prints the diagnostic, writes nothing, and is non-fatal. -/
theorem csv_invalid_soft_witness :
    ("o.csv" ≠ "" ∧ endswith "o.csv" ".json" = false ∧ endswith "o.csv" ".csv" = true ∧
        isTruthyList (Json.obj [("id", Json.num 1), ("name", Json.str "a")]) = false) ∧
      dumpOutput (some "o.csv") (Json.obj [("id", Json.num 1), ("name", Json.str "a")]) =
        ⟨["Invalid data format for CSV output."], [], none⟩ :=
  ⟨⟨by decide, by decide, by decide, by decide⟩,
    csv_invalid_soft "o.csv" (Json.obj [("id", Json.num 1), ("name", Json.str "a")])
      (by decide) (by decide) (by decide) (by decide)⟩

/-- C3 counterexample to the claim as stated: `[1]` is not a non-empty
sequence of mappings, yet with a `.csv` target the run does not print
the diagnostic — it creates the (empty) file, prints the write-error
message for the `AttributeError` from `data[0].keys()`, and exits 1. -/
theorem csv_invalid_claim_counterexample :
    dumpOutput (some "o.csv") (Json.arr [Json.num 1]) =
        ⟨[noAttrMsg (Json.num 1) "keys"], [("o.csv", "")], some 1⟩ ∧
      (dumpOutput (some "o.csv") (Json.arr [Json.num 1])).printed ≠
        ["Invalid data format for CSV output."] ∧
      (dumpOutput (some "o.csv") (Json.arr [Json.num 1])).files ≠ [] ∧
      (dumpOutput (some "o.csv") (Json.arr [Json.num 1])).exited = some 1 :=
  ⟨rfl, by decide, by decide, rfl⟩

/-- C2 (amended): a POST whose response is 2xx but not 201 and whose
body parses as JSON invokes the serializer on the payload and selected
target; provided serialization returns without a fatal error, the run
then prints `Error:` followed by the response text and exits 1.  (If
serialization itself fails fatally — e.g. the CSV `AttributeError` path
— the run still exits 1 but the response text is never printed, see the
counterexample.) -/
theorem post_2xx_not_201_errors (status : Nat) (body : String) (output : Option String)
    (j : Json) (h2 : 200 ≤ status) (h3 : status < 300) (h201 : status ≠ 201)
    (hparse : Json.parse body = some j)
    (hdump : (dumpOutput output j).exited = none) :
    processResponse Method.post status body output =
      ⟨statusLine status :: (dumpOutput output j).printed ++ ["Error: " ++ body],
        (dumpOutput output j).files, some 1⟩ := by
  have hne : ¬(400 ≤ status ∧ status < 600) := by omega
  simp [processResponse, hne, hparse, hdump, h201]

/-- C2 witness: a POST returning 200 with body `[]` and stdout target
still renders the payload, prints the response text, and exits 1. -/
theorem post_2xx_not_201_errors_witness :
    (200 ≤ 200 ∧ 200 < 300 ∧ 200 ≠ 201 ∧ Json.parse "[]" = some (Json.arr []) ∧
        (dumpOutput none (Json.arr [])).exited = none) ∧
      processResponse Method.post 200 "[]" none =
        ⟨["HTTP Status Code: 200", "[]", "Error: []"], [], some 1⟩ :=
  ⟨⟨by decide, by decide, by decide, rfl, rfl⟩, by
    have h := post_2xx_not_201_errors 200 "[]" none (Json.arr [])
      (by decide) (by decide) (by decide) rfl rfl
    exact h.trans (by rfl)⟩

/-- C2 counterexample to the claim as stated: POST, status 200, body
`[1]`, target `o.csv` — serialization aborts fatally, so no error
message containing the response text is ever printed, and nothing
resembling the payload reaches the target (the file is created empty). -/
theorem post_2xx_claim_counterexample :
    processResponse Method.post 200 "[1]" (some "o.csv") =
        ⟨[statusLine 200, noAttrMsg (Json.num 1) "keys"], [("o.csv", "")], some 1⟩ ∧
      "Error: [1]" ∉ (processResponse Method.post 200 "[1]" (some "o.csv")).printed :=
  ⟨rfl, by decide⟩

/-- C6: a POST returning exactly 201 with a JSON body serializes the
payload to the selected target, prints `Post request successful.`, and
(absent a fatal serialization failure) falls through to exit code 0. -/
theorem post_201_success (body : String) (output : Option String) (j : Json)
    (hparse : Json.parse body = some j)
    (hdump : (dumpOutput output j).exited = none) :
    processResponse Method.post 201 body output =
        ⟨statusLine 201 :: (dumpOutput output j).printed ++ ["Post request successful."],
          (dumpOutput output j).files, none⟩ ∧
      (processResponse Method.post 201 body output).exitCode = 0 := by
  have hne : ¬(400 ≤ 201 ∧ 201 < 600) := by omega
  constructor
  · simp [processResponse, hne, hparse, hdump]
  · simp [processResponse, hne, hparse, hdump, RunRes.exitCode]

/-- C6 witness: POST 201 with body `[]` and stdout target prints the
payload then the success line and exits 0. -/
theorem post_201_success_witness :
    (Json.parse "[]" = some (Json.arr []) ∧ (dumpOutput none (Json.arr [])).exited = none) ∧
      processResponse Method.post 201 "[]" none =
        ⟨["HTTP Status Code: 201", "[]", "Post request successful."], [], none⟩ ∧
      (processResponse Method.post 201 "[]" none).exitCode = 0 :=
  ⟨⟨rfl, rfl⟩, by
    have h := post_201_success "[]" none (Json.arr []) rfl rfl
    exact ⟨h.1.trans (by rfl), h.2⟩⟩

/-- C7 (amended): a GET with a 2xx status and a JSON body renders output
identical (after formatting) to the parsed value under the Stdout and
JsonFile targets — the pretty-printed text parses back to the same
value; under a CsvFile target the payload is instead CSV-rendered, and
only when it is a non-empty list (see the counterexample). -/
theorem get_2xx_output_faithful (status : Nat) (body : String) (j : Json)
    (h2 : 200 ≤ status) (h3 : status < 300) (hparse : Json.parse body = some j) :
    (processResponse Method.get status body none =
        ⟨[statusLine status, Json.dumps j], [], none⟩) ∧
      (∀ p, endswith p ".json" = true →
        processResponse Method.get status body (some p) =
          ⟨[statusLine status], [(p, Json.dumps j)], none⟩) ∧
      Json.parse (Json.dumps j) = some j := by
  have hne : ¬(400 ≤ status ∧ status < 600) := by omega
  refine ⟨?_, ?_, parse_dumps j⟩
  · simp [processResponse, hne, hparse, dumpOutput]
  · intro p hp
    have hpe : p ≠ "" := by
      intro e; subst e; exact absurd hp (by decide)
    simp [processResponse, hne, hparse, dumpOutput, hpe, hp]

/-- C7 witness: GET 200 with body `[]`: stdout shows the formatted
payload after the status line, `o.json` receives it, and it parses back
unchanged. -/
theorem get_2xx_output_faithful_witness :
    (200 ≤ 200 ∧ 200 < 300 ∧ Json.parse "[]" = some (Json.arr [])) ∧
      processResponse Method.get 200 "[]" none =
        ⟨["HTTP Status Code: 200", "[]"], [], none⟩ ∧
      processResponse Method.get 200 "[]" (some "o.json") =
        ⟨["HTTP Status Code: 200"], [("o.json", "[]")], none⟩ ∧
      Json.parse (Json.dumps (Json.arr [])) = some (Json.arr []) :=
  ⟨⟨by decide, by decide, rfl⟩, by
    have h := get_2xx_output_faithful 200 "[]" (Json.arr []) (by decide) (by decide) rfl
    exact ⟨h.1.trans (by rfl), (h.2.1 "o.json" (by decide)).trans (by rfl), h.2.2⟩⟩

/-- C7 counterexample to the claim as stated: under a CsvFile target a
2xx GET whose valid-JSON body is `{}` produces no output at all that is
identical to the JSON value — no file is written and only the
diagnostic line is printed. -/
theorem get_csv_target_counterexample :
    processResponse Method.get 200 "\x7b\x7d" (some "o.csv") =
        ⟨[statusLine 200, "Invalid data format for CSV output."], [], none⟩ ∧
      (processResponse Method.get 200 "\x7b\x7d" (some "o.csv")).files = [] ∧
      Json.dumps (Json.obj []) ∉
        (processResponse Method.get 200 "\x7b\x7d" (some "o.csv")).printed :=
  ⟨rfl, rfl, by decide⟩
